import Mathlib

/-!
Verification of the johnnydecimal core: the address parser (`util.py`),
the cascading policy engine (`policy.py`), the scope guard (`scope.py`)
and the next-available-sequence operation (`models.py`), shallowly
embedded over a pure model of the filesystem.

Modelling conventions:
* Strings are `List Char`; Python's `\d` is modelled as the ASCII digits
  `'0'..'9'` and `\s` as the ASCII whitespace class.
* Python's `re.match` anchors at the start only; a trailing `$` matches at
  the end of the string or just before a single final newline, and both
  behaviours are modelled.
* Paths are lists of name components (absolute, `[]` is the filesystem
  root); `Path.parent` is `dropLast`, `Path.name` of `[]` is `""`, and
  `Path.resolve` is the identity (no symlinks or `..` in the model).
* The filesystem is a flat listing of `(path, node)` pairs; the order of
  the listing is the directory-iteration order.
* YAML documents are modelled already parsed, as `Fields` (an
  insertion-ordered key/value mapping, matching Python's `dict`);
  a file whose parsed content is `none` stands for a document that fails
  to parse (`yaml.YAMLError`), which the code treats as absent.
-/

namespace JD

abbrev Name := List Char

/-- `\d` (restricted to ASCII as used by the repository's names). -/
def isDigitCh (c : Char) : Bool := c.isDigit

/-- Python's `\s` class / `str.strip` whitespace, ASCII part. -/
def isSpaceCh (c : Char) : Bool :=
  c = ' ' || c = '\t' || c = '\n' || c = '\r' || c = '\x0b' || c = '\x0c'

/-- Numeric value of an ASCII digit character. -/
def digitVal (c : Char) : Nat := c.toNat - 48

/-- ASCII digit character for a value `0..9`. -/
def digitChar (d : Nat) : Char := Char.ofNat (48 + d)

/-- `int` of a two-digit group, e.g. `int("26") = 26`. -/
def natVal2 (a b : Char) : Nat := digitVal a * 10 + digitVal b

/-- Python `$`: matches at the end of the string or just before a single
final newline. `dollarEnd rest` says the regex engine positioned before
`rest` can satisfy a trailing `$`. -/
def dollarEnd : Name → Bool
  | [] => true
  | [c] => c = '\n'
  | _ => false

/-! ### YAML values and mappings

`Val` is a parsed YAML value; `Fields` is an insertion-ordered mapping
(Python `dict`). They are mutually inductive so that the recursion in
`deep_merge` is structural. -/

mutual
inductive Val where
  | vbool (b : Bool)
  | vint (n : Int)
  | vstr (s : List Char)
  | vnull
  | vlist (xs : List Val)
  | vdict (fs : Fields)
inductive Fields where
  | fnil
  | fcons (k : List Char) (v : Val) (rest : Fields)
end

/-- `d.get(k)` on an insertion-ordered mapping. -/
def lookupF : Fields → Name → Option Val
  | Fields.fnil, _ => none
  | Fields.fcons k v rest, key => if k = key then some v else lookupF rest key

/-- `d[k] = v`: replace in place if the key is present, else append —
exactly Python's insertion-ordered dict assignment. -/
def setF : Fields → Name → Val → Fields
  | Fields.fnil, key, v => Fields.fcons key v Fields.fnil
  | Fields.fcons k v0 rest, key, v =>
      if k = key then Fields.fcons key v rest
      else Fields.fcons k v0 (setF rest key v)

/-- `policy.py: deep_merge(base, override)` — override values win, two
mappings under the same key merge recursively, every other collision
(lists included) is replaced outright. -/
def deep_merge : Fields → Fields → Fields
  | result, Fields.fnil => result
  | result, Fields.fcons k v rest =>
      let r2 :=
        match lookupF result k, v with
        | some (Val.vdict b), Val.vdict o => setF result k (Val.vdict (deep_merge b o))
        | _, _ => setF result k v
      deep_merge r2 rest

/-- Keys of a mapping, in insertion order. -/
def keysF : Fields → List Name
  | Fields.fnil => []
  | Fields.fcons k _ rest => k :: keysF rest

/-- `bool(d)` for a dict: nonempty test. -/
def fieldsNonEmpty : Fields → Bool
  | Fields.fnil => false
  | Fields.fcons _ _ _ => true

/-- `{k: v for k, v in d.items() if k != bad}`. -/
def filterOutKey : Fields → Name → Fields
  | Fields.fnil, _ => Fields.fnil
  | Fields.fcons k v rest, bad =>
      if k = bad then filterOutKey rest bad
      else Fields.fcons k v (filterOutKey rest bad)

/-! ### Filesystem model

A flat listing of absolute paths. `NodeInfo.fileN c` carries the parsed
content of the file (`none` = the document store reports it malformed);
directory-iteration order is the listing order. -/

abbrev Path := List Name

inductive NodeInfo where
  | dirN
  | fileN (content : Option Fields)

abbrev FS := List (Path × NodeInfo)

def NodeInfo.isDir : NodeInfo → Bool
  | NodeInfo.dirN => true
  | NodeInfo.fileN _ => false

/-- First node recorded at a path (the filesystem listings used below
never repeat a path). -/
def lookupFS : FS → Path → Option NodeInfo
  | [], _ => none
  | e :: rest, p => if e.1 = p then some e.2 else lookupFS rest p

/-- `Path.exists()`. -/
def existsPath (fs : FS) (p : Path) : Bool := (lookupFS fs p).isSome

/-- `Path.is_dir()`. -/
def isDir (fs : FS) (p : Path) : Bool :=
  match lookupFS fs p with
  | some i => i.isDir
  | none => false

/-- Parsed content of the document at `p`, when `p` is a file that
parses (`open` + `yaml.safe_load`); `none` covers a missing path, a
directory (`OSError`) and a malformed document (`YAMLError`). -/
def fileDoc (fs : FS) (p : Path) : Option Fields :=
  match lookupFS fs p with
  | some (NodeInfo.fileN c) => c
  | _ => none

/-- `Path.name` (the final component; `""` for the filesystem root). -/
def pathName (p : Path) : Name := p.getLast?.getD []

/-- `Path.parent` (the filesystem root is its own parent). -/
def pathParent (p : Path) : Path := p.dropLast

/-- `Path.iterdir()`: the immediate children of `p`, as
(final component, node) pairs in listing order. -/
def childrenEntries (fs : FS) (p : Path) : List (Name × NodeInfo) :=
  fs.filterMap (fun e =>
    if e.1.dropLast = p then
      match e.1.getLast? with
      | some n => some (n, e.2)
      | none => none
    else none)

/-- All directory paths at or below `p` in the listing. -/
def dirsUnder (fs : FS) (p : Path) : List Path :=
  fs.filterMap (fun e =>
    if e.2.isDir && p.isPrefixOf e.1 then some e.1 else none)

/-! ### Name patterns (`util.py` regexes, `re.match` = anchored at start) -/

/-- `\d{2}[-–]\d{2} .+` — the Johnny Decimal area name shape
("10-19 Personal", hyphen or en-dash); `.` excludes a newline. -/
def areaPat : Name → Bool
  | a :: b :: s :: c :: d :: sp :: e :: _ =>
      isDigitCh a && isDigitCh b && (s = '-' || s = '–') && isDigitCh c &&
        isDigitCh d && sp = ' ' && !(e = '\n')
  | _ => false

/-- `\d{2}[-–]\d{2} ` — the area-shaped prefix ruled out by
`is_jd_category`. -/
def areaPrefixPat : Name → Bool
  | a :: b :: s :: c :: d :: sp :: _ =>
      isDigitCh a && isDigitCh b && (s = '-' || s = '–') && isDigitCh c &&
        isDigitCh d && sp = ' '
  | _ => false

/-- `\d{2}\.\d{2} ` — the ID-shaped prefix ruled out by
`is_jd_category`. -/
def idPrefixPat : Name → Bool
  | a :: b :: dot :: c :: d :: sp :: _ =>
      isDigitCh a && isDigitCh b && dot = '.' && isDigitCh c && isDigitCh d && sp = ' '
  | _ => false

/-- `\d{2} .+` — the category name shape ("26 Recipes"). -/
def catBasePat : Name → Bool
  | a :: b :: sp :: e :: _ => isDigitCh a && isDigitCh b && sp = ' ' && !(e = '\n')
  | _ => false

/-- Tail of `\d{2}\.\d{2}($| .+)` after the two numbers: end of string,
the `$`-before-final-newline case, or a space plus at least one
non-newline character. -/
def idTail : Name → Bool
  | [] => true
  | [c] => c = '\n'
  | sp :: e :: _ => sp = ' ' && !(e = '\n')

/-- `\d{2}\.\d{2}($| .+)` — the ID name shape ("26.01 Unsorted",
"26.00"). -/
def idNamePat : Name → Bool
  | a :: b :: dot :: c :: d :: rest =>
      isDigitCh a && isDigitCh b && dot = '.' && isDigitCh c && isDigitCh d && idTail rest
  | _ => false

/-- `name.startswith(".")`. -/
def startsWithDot : Name → Bool
  | c :: _ => c = '.'
  | _ => false

/-! ### `util.py` -/

/-- `util.py: is_jd_area`. -/
def is_jd_area (fs : FS) (p : Path) : Bool :=
  isDir fs p && areaPat (pathName p)

/-- `util.py: is_jd_category` — category shape, with the area-shaped and
ID-shaped prefixes explicitly ruled out first. -/
def is_jd_category (fs : FS) (p : Path) : Bool :=
  if !(isDir fs p) then false
  else
    let name := pathName p
    if areaPrefixPat name then false
    else if idPrefixPat name then false
    else catBasePat name

/-- `util.py: is_jd_id`. -/
def is_jd_id (fs : FS) (p : Path) : Bool :=
  isDir fs p && idNamePat (pathName p)

/-- `util.py: is_jd_root` — among the immediate non-dot-prefixed
subdirectories, at least 3 are Johnny Decimal areas.  (The
`PermissionError` branch is outside the model.) -/
def is_jd_root (fs : FS) (p : Path) : Bool :=
  let children := ((childrenEntries fs p).filter
      (fun c => c.2.isDir && !startsWithDot c.1)).map (fun c => p ++ [c.1])
  3 ≤ (children.filter (fun d => is_jd_area fs d)).length

/-- `util.py: is_in_user_home` — `path.is_relative_to(home)`. -/
def is_in_user_home (home p : Path) : Bool := home.isPrefixOf p

/-- The `while not is_jd_root(path) and is_in_user_home(path)` loop of
`get_jd_root_dir`, with explicit fuel (each iteration strictly shortens
the path, so `start.length + 1` fuel is always enough when `home ≠ []`). -/
def walkUp (fs : FS) (home : Path) : Nat → Path → Path
  | 0, p => p
  | fuel + 1, p =>
      if !(is_jd_root fs p) && is_in_user_home home p then
        walkUp fs home fuel p.dropLast
      else p

/-- `util.py: get_jd_root_dir` — `none` models raising
`NotJohnnyDecimalDirectoryError`. -/
def get_jd_root_dir (fs : FS) (home start : Path) : Option Path :=
  let p := walkUp fs home (start.length + 1) start
  if is_jd_root fs p then some p else none

/-- `util.py: parse_jd_id_string` — regex `(\d{2})\.(\d{2})`, anchored at
the start only; `none` models raising `ValueError`. -/
def parse_jd_id_string : Name → Option (Nat × Nat)
  | a :: b :: c :: d :: e :: _ =>
      if isDigitCh a && isDigitCh b && c = '.' && isDigitCh d && isDigitCh e then
        some (natVal2 a b, natVal2 d e)
      else none
  | _ => none

/-- `util.py: format_jd_id` — `f"{category:02d}.{sequence:02d}"`.
Faithful on `0..99` (the two-digit Johnny Decimal domain); above 99
Python would print extra digits. -/
def format_jd_id (category sequence : Nat) : Name :=
  [digitChar (category / 10), digitChar (category % 10), '.',
   digitChar (sequence / 10), digitChar (sequence % 10)]

/-- `models.py: JDCategory.next_id` — the category's used sequence
numbers are abstracted to the list `seqs` (the code builds the set
`{jd_id.sequence for jd_id in self.ids}`); `none` models raising
`ValueError("Category ... is full")`. -/
def next_id (seqs : List Nat) : Option Nat :=
  (List.range' 1 99).find? (fun i => !(seqs.contains i))

/-! ### `policy.py` -/

/-- Build an insertion-ordered mapping from a key/value list. -/
def fieldsOf : List (Name × Val) → Fields
  | [] => Fields.fnil
  | (k, v) :: rest => Fields.fcons k v (fieldsOf rest)

/-- `policy.py: DEFAULTS` — the built-in baseline convention set. -/
def DEFAULTS : Fields :=
  fieldsOf
    [("conventions".data, Val.vdict (fieldsOf
        [("meta_category".data, Val.vbool true),
         ("meta_id".data, Val.vbool true),
         ("unsorted_id".data, Val.vbool true),
         ("ids_files_only".data, Val.vbool false),
         ("ids_as_files".data, Val.vbool false),
         ("capture_category".data, Val.vstr "01".data),
         ("naming".data, Val.vdict (fieldsOf
            [("separator".data, Val.vstr "-".data),
             ("case".data, Val.vstr "sentence".data),
             ("no_trailing_spaces".data, Val.vbool true),
             ("no_special_chars".data, Val.vbool true)]))])),
     ("ignore".data, Val.vlist
        [Val.vstr ".DS_Store".data, Val.vstr ".git".data,
         Val.vstr "__pycache__".data, Val.vstr ".Trash".data,
         Val.vstr "*.pyc".data])]

def POLICY_FILENAME : Name := "policy.yaml".data

/-- `\d{2}\.00$` — a meta-directory name ("80.00"). -/
def metaEndPat : Name → Bool
  | a :: b :: '.' :: '0' :: '0' :: rest => isDigitCh a && isDigitCh b && dollarEnd rest
  | _ => false

/-- `(\d{2})\.\d{2}` — the captured category digits of an ID-shaped name. -/
def idNumPat : Name → Option (Char × Char)
  | a :: b :: '.' :: c :: d :: _ =>
      if isDigitCh a && isDigitCh b && isDigitCh c && isDigitCh d then some (a, b)
      else none
  | _ => none

/-- `(\d{2}) ` — the captured digits of a category-shaped name. -/
def catNumPat : Name → Option (Char × Char)
  | a :: b :: ' ' :: _ => if isDigitCh a && isDigitCh b then some (a, b) else none
  | _ => none

/-- `(\d)(\d)[-–]\d{2} ` — the captured first (tens) digit of an
area-shaped name. -/
def areaDigitPat : Name → Option Char
  | a :: b :: s :: c :: d :: ' ' :: _ =>
      if isDigitCh a && isDigitCh b && (s = '-' || s = '–') && isDigitCh c && isDigitCh d
      then some a else none
  | _ => none

/-- `00[-–]09 ` — the system meta area. -/
def rootAreaPat : Name → Bool
  | '0' :: '0' :: s :: '0' :: '9' :: ' ' :: _ => s = '-' || s = '–'
  | _ => false

/-- `policy.py: find_meta_dir` — the `xx.00` meta directory governing a
path, resolved by the shape of the path's own name. -/
def find_meta_dir (fs : FS) (p : Path) : Option Path :=
  let name := pathName p
  if metaEndPat name then some p
  else
    match idNumPat name with
    | some (a, b) =>
        let meta := pathParent p ++ [[a, b, '.', '0', '0']]
        if existsPath fs meta then some meta else none
    | none =>
    match catNumPat name with
    | some (a, b) =>
        let meta := p ++ [[a, b, '.', '0', '0']]
        if existsPath fs meta then some meta else none
    | none =>
    match areaDigitPat name with
    | some a =>
        -- first child directory named "x0 ..." (the area's meta category)
        match (childrenEntries fs p).find?
            (fun c => c.2.isDir && ([a, '0', ' ']).isPrefixOf c.1) with
        | some c =>
            let meta := p ++ [c.1, [a, '0', '.', '0', '0']]
            if existsPath fs meta then some meta else none
        | none => none
    | none =>
        -- root: search the 00-09 area for a "00 ..." category holding 00.00
        (childrenEntries fs p).findSome? (fun ac =>
          if ac.2.isDir && rootAreaPat ac.1 then
            (childrenEntries fs (p ++ [ac.1])).findSome? (fun cc =>
              if cc.2.isDir && ("00 ".data).isPrefixOf cc.1 then
                let meta := p ++ [ac.1, cc.1, "00.00".data]
                if existsPath fs meta then some meta else none
              else none)
          else none)

/-- `policy.py: load_policy_file` — the parsed `policy.yaml` of the
path's meta dir; `none` when there is no meta dir, no document, or the
document is malformed. -/
def load_policy_file (fs : FS) (p : Path) : Option Fields :=
  match find_meta_dir fs p with
  | some meta =>
      let pp := meta ++ [POLICY_FILENAME]
      if existsPath fs pp then fileDoc fs pp else none
  | none => none

/-- `^\*\.(\d{2})$` on the pattern string of `match_pattern`. -/
def starSeqPat : Name → Option (Char × Char)
  | st :: dot :: a :: b :: rest =>
      if st = '*' && dot = '.' && isDigitCh a && isDigitCh b && dollarEnd rest then
        some (a, b)
      else none
  | _ => none

/-- `\d{2}\.ab($|\s)` against the directory name, for sequence digits
`a b`. -/
def seqNameMatch (a b : Char) : Name → Bool
  | x :: y :: dot :: s :: t :: rest =>
      isDigitCh x && isDigitCh y && dot = '.' && s = a && t = b &&
        (match rest with
         | [] => true
         | c :: _ => isSpaceCh c)
  | _ => false

/-- `(\d)0\s` with the first digit required nonzero (the `x0` rule). -/
def x0NameMatch : Name → Bool
  | a :: z :: c :: _ => isDigitCh a && z = '0' && isSpaceCh c && !(a = '0')
  | _ => false

/-- `\d{2}\.\d{2}$` on a pattern string. -/
def idDotExact : Name → Bool
  | a :: b :: dot :: c :: d :: rest =>
      isDigitCh a && isDigitCh b && dot = '.' && isDigitCh c && isDigitCh d &&
        dollarEnd rest
  | _ => false

/-- `\d{2}$` on a pattern string. -/
def twoDigitExact : Name → Bool
  | a :: b :: rest => isDigitCh a && isDigitCh b && dollarEnd rest
  | _ => false

/-- `^{pattern}\s` against the directory name (the pattern's characters
are all regex-literal here). -/
def catNameMatch (pattern dirName : Name) : Bool :=
  pattern.isPrefixOf dirName &&
    (match dirName.drop pattern.length with
     | c :: _ => isSpaceCh c
     | [] => false)

/-- `policy.py: match_pattern` — the four pattern forms, tried in source
order. -/
def match_pattern (pattern dirName : Name) : Bool :=
  match starSeqPat pattern with
  | some (a, b) => seqNameMatch a b dirName
  | none =>
      if pattern = "x0".data then x0NameMatch dirName
      else if idDotExact pattern then pattern.isPrefixOf dirName
      else if twoDigitExact pattern then catNameMatch pattern dirName
      else false

/-- The parent-walk of `resolve_policy` building the chain from `path`
up to `root` (top entry first after the final reverse).  Fuel
`p.length + 1` covers the walk, since each step strictly shortens the
path and the filesystem root is its own parent. -/
def buildChainAux (root : Path) : Nat → Path → List Path → List Path
  | 0, _, acc => acc
  | fuel + 1, current, acc =>
      let acc2 := acc ++ [current]
      if current = root then acc2
      else
        let parent := current.dropLast
        if parent = current then
          -- hit the filesystem root without meeting the JD root: append it
          if root ∈ acc2 then acc2 else acc2 ++ [root]
        else buildChainAux root fuel parent acc2

def buildChain (p root : Path) : List Path :=
  (buildChainAux root (p.length + 1) p []).reverse

/-- The `for pattern, pattern_policy in patterns.items()` loop of
`resolve_policy`: each pattern matching the target's name merges its
payload (wrapped as `{"conventions": payload}` unless the payload, a
mapping, already has a `conventions` key; a non-mapping payload would
make Python's `deep_merge` raise and is wrapped here, unused by any
scenario). -/
def applyPatterns (targetName : Name) : Fields → Fields → Fields
  | eff, Fields.fnil => eff
  | eff, Fields.fcons pat pp rest =>
      let eff2 :=
        if match_pattern pat targetName then
          let payload : Fields :=
            match pp with
            | Val.vdict pd =>
                if (lookupF pd "conventions".data).isSome then pd
                else Fields.fcons "conventions".data pp Fields.fnil
            | _ => Fields.fcons "conventions".data pp Fields.fnil
          deep_merge eff payload
        else eff
      applyPatterns targetName eff2 rest

/-- `policy.py: resolve_policy` — walk root → path layering each level's
policy document (base keys, then matching patterns) over `DEFAULTS`. -/
def resolve_policy (fs : FS) (p root : Path) : Fields :=
  let chain := buildChain p root
  let targetName := pathName p
  chain.foldl (fun effective dirPath =>
    match load_policy_file fs dirPath with
    | none => effective
    | some policy =>
        if fieldsNonEmpty policy then
          let base := filterOutKey policy "patterns".data
          let eff1 := if fieldsNonEmpty base then deep_merge effective base else effective
          let pats :=
            match lookupF policy "patterns".data with
            | some (Val.vdict ps) => ps
            | _ => Fields.fnil
          applyPatterns targetName eff1 pats
        else effective) DEFAULTS

/-- `key.split(".")` (Python semantics: `"" → [""]`, separators at the
ends produce empty parts). -/
def splitOnDot : Name → List Name
  | [] => [[]]
  | '.' :: rest => [] :: splitOnDot rest
  | c :: rest =>
      match splitOnDot rest with
      | h :: t => (c :: h) :: t
      | [] => [[c]]

/-- The dotted-key loop of `get_convention`: descend while the current
value is a mapping (a missing key leaves Python `None`, modelled
`vnull`); a non-mapping midway returns the default, and so does a final
`None`. -/
def walkKey (dflt : Val) : Val → List Name → Val
  | current, [] =>
      match current with
      | Val.vnull => dflt
      | v => v
  | current, part :: rest =>
      match current with
      | Val.vdict d =>
          walkKey dflt ((lookupF d part).getD Val.vnull) rest
      | _ => dflt

/-- `policy.py: get_convention`. -/
def get_convention (policy : Fields) (key : Name) (dflt : Val) : Val :=
  let conventions : Val := (lookupF policy "conventions".data).getD (Val.vdict Fields.fnil)
  if key.contains '.' then
    walkKey dflt conventions (splitOnDot key)
  else
    match conventions with
    | Val.vdict d => (lookupF d key).getD dflt
    | _ => dflt  -- a non-mapping `conventions` would raise in Python; unused

/-! ### `scope.py`

The `JD_AGENT_SCOPE` environment variable is modelled as `Option Path`
(`none` covers both an unset and an empty value, which Python's
truthiness test treats alike), and the current working directory as a
`Path`. -/

/-- `scope.py: find_scope_file` — the explicitly designated manifest
wins and is never fallen back from; otherwise `./jd.yaml` if present. -/
def find_scope_file (fs : FS) (env : Option Path) (cwd : Path) : Option Path :=
  match env with
  | some p => if existsPath fs p then some p else none
  | none =>
      let cwdScope := cwd ++ ["jd.yaml".data]
      if existsPath fs cwdScope then some cwdScope else none

/-- `str(s)` on a scope-list entry.  Scalars are rendered exactly;
collection entries (which a sane manifest never holds, and which no
theorem below touches) get a marker rather than Python's full `repr`. -/
def pyStrVal : Val → Name
  | Val.vstr s => s
  | Val.vbool true => "True".data
  | Val.vbool false => "False".data
  | Val.vnull => "None".data
  | Val.vint n => (toString n).data
  | Val.vlist _ => "<list>".data
  | Val.vdict _ => "<dict>".data

/-- `scope.py: load_scope` — `none` is "unrestricted".  A missing file,
a malformed document, a missing `scope` key, the literal `"all"`, and
any other non-list value all yield unrestricted; a list maps its
entries through `str`.  (The `yaml is None` import-failure branch is an
environment configuration outside the model.) -/
def load_scope (fs : FS) (env : Option Path) (cwd : Path)
    (scope_file : Option Path) : Option (List Name) :=
  let sf :=
    match scope_file with
    | none => find_scope_file fs env cwd
    | some p => some p
  match sf with
  | none => none
  | some p =>
      match fileDoc fs p with
      | none => none
      | some data =>
          match lookupF data "scope".data with
          | some (Val.vlist xs) => some (xs.map pyStrVal)
          | _ => none

/-- `str.strip()` — Python whitespace removed from both ends. -/
def pyStrip (s : Name) : Name :=
  ((s.dropWhile isSpaceCh).reverse.dropWhile isSpaceCh).reverse

/-- `(\d{2})\.\d{2}$` of `_extract_number`. -/
def exIdNum : Name → Option Nat
  | a :: b :: '.' :: c :: d :: rest =>
      if isDigitCh a && isDigitCh b && isDigitCh c && isDigitCh d && dollarEnd rest
      then some (natVal2 a b) else none
  | _ => none

/-- `(\d{2})$` of `_extract_number`. -/
def exCatNum : Name → Option Nat
  | a :: b :: rest =>
      if isDigitCh a && isDigitCh b && dollarEnd rest then some (natVal2 a b) else none
  | _ => none

/-- `(\d{2})-\d{2}$` of `_extract_number`. -/
def exAreaNum : Name → Option Nat
  | a :: b :: '-' :: c :: d :: rest =>
      if isDigitCh a && isDigitCh b && isDigitCh c && isDigitCh d && dollarEnd rest
      then some (natVal2 a b) else none
  | _ => none

/-- `scope.py: _extract_number` — the leading category/area number of a
target string, trying the ID, bare-number and area-band shapes in
source order. -/
def extract_number (t : Name) : Option Nat :=
  match exIdNum t with
  | some n => some n
  | none =>
      match exCatNum t with
      | some n => some n
      | none => exAreaNum t

/-- `(\d{2})-(\d{2})$` — an area-band scope pattern with its bounds. -/
def areaRangePat : Name → Option (Nat × Nat)
  | a :: b :: '-' :: c :: d :: rest =>
      if isDigitCh a && isDigitCh b && isDigitCh c && isDigitCh d && dollarEnd rest
      then some (natVal2 a b, natVal2 c d) else none
  | _ => none

/-- `int(pattern)` for a pattern that passed the `\d{2}$` test. -/
def twoDigitVal : Name → Nat
  | a :: b :: _ => natVal2 a b
  | _ => 0

/-- One iteration of the `is_in_scope` loop: whether the (stripped)
pattern claims the target.  A pattern whose form-specific test fails
`continue`s, i.e. yields `false` here. -/
def scopeStep (target pattern : Name) : Bool :=
  match areaRangePat pattern with
  | some (lo, hi) =>
      match extract_number target with
      | some n => decide (lo ≤ n) && decide (n ≤ hi)
      | none => false
  | none =>
      if twoDigitExact pattern then
        (match extract_number target with
         | some n => decide (n = twoDigitVal pattern)
         | none => false)
        || (pattern ++ ['.']).isPrefixOf target
      else if idDotExact pattern then decide (target = pattern)
      else false

/-- `scope.py: is_in_scope` — first matching pattern wins; an exhausted
list is `false`. -/
def is_in_scope (target : Name) : List Name → Bool
  | [] => false
  | p :: rest => scopeStep target (pyStrip p) || is_in_scope target rest

/-- Python's `f"{scope}"` for a list of plain strings. -/
def scopeListRepr (scope : List Name) : Name :=
  '[' :: (List.intercalate ", ".data
    (scope.map (fun s => '\x27' :: (s ++ ['\x27'])))) ++ [']']

/-- `scope.py: check_scope` — `(allowed, message)`. -/
def check_scope (fs : FS) (env : Option Path) (cwd : Path) (target : Name)
    (scope_file : Option Path) : Bool × Option Name :=
  match load_scope fs env cwd scope_file with
  | none => (true, none)
  | some scope =>
      if is_in_scope target scope then (true, none)
      else (false, some ("Out of scope: ".data ++ target ++
        " is not in agent scope ".data ++ scopeListRepr scope))

/-! ## Helper lemmas -/

theorem mem_range'_one {m s c : Nat} : m ∈ List.range' s c ↔ s ≤ m ∧ m < s + c := by
  rw [List.mem_range']
  constructor
  · rintro ⟨i, hi, rfl⟩; omega
  · rintro ⟨h1, h2⟩; exact ⟨m - s, by omega, by omega⟩

theorem find?_range'_some {p : Nat → Bool} :
    ∀ (c s n : Nat), (List.range' s c).find? p = some n →
      p n = true ∧ s ≤ n ∧ n < s + c ∧ ∀ m, s ≤ m → m < n → p m = false := by
  intro c
  induction c with
  | zero => intro s n h; simp at h
  | succ c ih =>
      intro s n h
      rw [List.range'_succ] at h
      by_cases hp : p s = true
      · rw [List.find?_cons_of_pos _ hp] at h
        obtain rfl : s = n := by simpa using h
        exact ⟨hp, Nat.le_refl _, by omega, fun m h1 h2 => absurd h1 (by omega)⟩
      · rw [List.find?_cons_of_neg _ (by simpa using hp)] at h
        obtain ⟨h1, h2, h3, h4⟩ := ih (s + 1) n h
        refine ⟨h1, by omega, by omega, fun m hm1 hm2 => ?_⟩
        rcases Nat.eq_or_lt_of_le hm1 with rfl | hlt
        · simpa using hp
        · exact h4 m hlt hm2

/-- **C7** — `NextAvailableSequence`: `next_id` yields the smallest
sequence number in `[1, 99]` not already used in the category (so never
`0`, even when `0` is free), fails exactly when all of `1..99` are used,
and on used sequences `{0, 1, 5}` yields `2`. -/
theorem next_id_spec (seqs : List Nat) :
    (∀ n, next_id seqs = some n →
        1 ≤ n ∧ n ≤ 99 ∧ n ∉ seqs ∧ ∀ m, 1 ≤ m → m < n → m ∈ seqs) ∧
    (next_id seqs = none ↔ ∀ i, 1 ≤ i → i ≤ 99 → i ∈ seqs) ∧
    next_id [0, 1, 5] = some 2 := by
  refine ⟨?_, ?_, rfl⟩
  · intro n h
    obtain ⟨h1, h2, h3, h4⟩ := find?_range'_some 99 1 n h
    refine ⟨h2, by omega, by simpa using h1, fun m hm1 hm2 => ?_⟩
    have := h4 m hm1 hm2
    simpa using this
  · rw [show next_id seqs = (List.range' 1 99).find? (fun i => !(seqs.contains i)) from rfl,
      List.find?_eq_none]
    constructor
    · intro h i h1 h2
      have := h i (mem_range'_one.mpr ⟨h1, by omega⟩)
      simpa using this
    · intro h x hx
      have hx' := mem_range'_one.mp hx
      simp only [Bool.not_eq_true', Bool.not_eq_false]
      simpa using h x hx'.1 (by omega)

/-- **C7 witness** — the theorem applied to the `{0, 1, 5}` category. -/
theorem next_id_spec_witness :
    1 ≤ 2 ∧ 2 ≤ 99 ∧ 2 ∉ [0, 1, 5] ∧ ∀ m, 1 ≤ m → m < 2 → m ∈ [0, 1, 5] :=
  (next_id_spec [0, 1, 5]).1 2 rfl

theorem digitChar_isDigit {d : Nat} (h : d ≤ 9) : isDigitCh (digitChar d) = true := by
  interval_cases d <;> rfl

theorem digitVal_digitChar {d : Nat} (h : d ≤ 9) : digitVal (digitChar d) = d := by
  interval_cases d <;> rfl

theorem natVal2_digitChar {n : Nat} (h : n ≤ 99) :
    natVal2 (digitChar (n / 10)) (digitChar (n % 10)) = n := by
  unfold natVal2
  rw [digitVal_digitChar (by omega), digitVal_digitChar (by omega)]
  omega

/-- **C9** — ID addressing round-trip: formatting a category/sequence
pair from `0..99` as zero-padded `"NN.MM"` and parsing it back is the
identity; in particular `format(26, 1) = "26.01"` and
`parse("26.01") = (26, 1)`. -/
theorem jd_id_roundtrip :
    (∀ c s, c ≤ 99 → s ≤ 99 → parse_jd_id_string (format_jd_id c s) = some (c, s)) ∧
    format_jd_id 26 1 = "26.01".data ∧
    parse_jd_id_string "26.01".data = some (26, 1) := by
  refine ⟨?_, rfl, rfl⟩
  intro c s hc hs
  show parse_jd_id_string
      [digitChar (c / 10), digitChar (c % 10), '.', digitChar (s / 10), digitChar (s % 10)]
    = some (c, s)
  simp only [parse_jd_id_string]
  rw [digitChar_isDigit (by omega : c / 10 ≤ 9),
    digitChar_isDigit (by omega : c % 10 ≤ 9),
    digitChar_isDigit (by omega : s / 10 ≤ 9),
    digitChar_isDigit (by omega : s % 10 ≤ 9)]
  simp only [decide_True, Bool.and_true, Bool.true_and, if_true]
  rw [natVal2_digitChar hc, natVal2_digitChar hs]

/-- **C9 witness** — the theorem applied at `(26, 1)`. -/
theorem jd_id_roundtrip_witness :
    parse_jd_id_string (format_jd_id 26 1) = some (26, 1) :=
  jd_id_roundtrip.1 26 1 (by omega) (by omega)

theorem lookupF_setF_self : ∀ (d : Fields) (k : Name) (v : Val),
    lookupF (setF d k v) k = some v
  | Fields.fnil, k, v => by simp [setF, lookupF]
  | Fields.fcons k0 v0 rest, k, v => by
      by_cases h : k0 = k
      · simp [setF, h, lookupF]
      · simp only [setF, if_neg h, lookupF]
        exact lookupF_setF_self rest k v

theorem lookupF_setF_ne : ∀ (d : Fields) (k0 : Name) (v : Val) (k : Name), k0 ≠ k →
    lookupF (setF d k0 v) k = lookupF d k
  | Fields.fnil, k0, v, k, h => by simp [setF, lookupF, h]
  | Fields.fcons k1 v1 rest, k0, v, k, h => by
      by_cases h1 : k1 = k0
      · simp [setF, h1, lookupF, h]
      · simp only [setF, if_neg h1, lookupF]
        by_cases h2 : k1 = k
        · simp [h2]
        · rw [if_neg h2, if_neg h2]
          exact lookupF_setF_ne rest k0 v k h

/-- The equation of `deep_merge` on a `fcons` override, with the merge
step spelled out. -/
theorem deep_merge_cons (result : Fields) (k : Name) (v : Val) (rest : Fields) :
    deep_merge result (Fields.fcons k v rest) =
      deep_merge
        (match lookupF result k, v with
         | some (Val.vdict b), Val.vdict o => setF result k (Val.vdict (deep_merge b o))
         | _, _ => setF result k v) rest := by
  rw [deep_merge.eq_def]

theorem lookupF_mergeStep_ne (result : Fields) (k0 : Name) (v : Val) (k : Name)
    (h : ¬ k0 = k) :
    lookupF
      (match lookupF result k0, v with
       | some (Val.vdict b), Val.vdict o => setF result k0 (Val.vdict (deep_merge b o))
       | _, _ => setF result k0 v) k = lookupF result k := by
  rcases hb : lookupF result k0 with _ | vb
  · cases v <;> simp only [] <;> exact lookupF_setF_ne result k0 _ k h
  · cases vb <;> cases v <;> simp only [] <;> exact lookupF_setF_ne result k0 _ k h

theorem lookupF_mergeStep_self (result : Fields) (k0 : Name) (v : Val) :
    lookupF
      (match lookupF result k0, v with
       | some (Val.vdict b), Val.vdict o => setF result k0 (Val.vdict (deep_merge b o))
       | _, _ => setF result k0 v) k0 =
      some (match lookupF result k0, v with
            | some (Val.vdict b), Val.vdict o => Val.vdict (deep_merge b o)
            | _, _ => v) := by
  rcases hb : lookupF result k0 with _ | vb
  · cases v <;> simp only [] <;> exact lookupF_setF_self result k0 _
  · cases vb <;> cases v <;> simp only [] <;> exact lookupF_setF_self result k0 _

theorem lookupF_deep_merge_not_mem :
    ∀ (ov base : Fields) (k : Name), k ∉ keysF ov →
      lookupF (deep_merge base ov) k = lookupF base k
  | Fields.fnil, _, _, _ => rfl
  | Fields.fcons k0 v0 rest, base, k, h => by
      simp only [keysF, List.mem_cons, not_or] at h
      rw [deep_merge_cons, lookupF_deep_merge_not_mem rest _ k h.2,
        lookupF_mergeStep_ne base k0 v0 k (fun e => h.1 e.symm)]

theorem deep_merge_lookup :
    ∀ (ov base : Fields) (k : Name), (keysF ov).Nodup →
      lookupF (deep_merge base ov) k =
        match lookupF base k, lookupF ov k with
        | some (Val.vdict b), some (Val.vdict o) => some (Val.vdict (deep_merge b o))
        | _, some v => some v
        | ob, none => ob
  | Fields.fnil, base, k, _ => by
      rcases hb : lookupF base k with _ | vb
      · simp [deep_merge, lookupF, hb]
      · cases vb <;> simp [deep_merge, lookupF, hb]
  | Fields.fcons k0 v0 rest, base, k, hnd => by
      have hnd' : k0 ∉ keysF rest ∧ (keysF rest).Nodup := by
        simpa [keysF] using hnd
      rw [deep_merge_cons]
      by_cases hk : k0 = k
      · subst hk
        rw [lookupF_deep_merge_not_mem rest _ k0 hnd'.1, lookupF_mergeStep_self]
        rcases hb : lookupF base k0 with _ | vb
        · cases v0 <;> simp [lookupF, hb]
        · cases vb <;> cases v0 <;> simp [lookupF, hb]
      · rw [deep_merge_lookup rest _ k hnd'.2, lookupF_mergeStep_ne base k0 v0 k hk]
        simp only [lookupF, if_neg hk]

/-- **C3** — `deep_merge` is right-biased and recurses only on
mappings: a key present in both with two mapping values merges
recursively, every other collision takes the override value outright,
keys present on one side only keep that side's value; in particular
`{a: {x: 1, y: 2}} ⊕ {a: {y: 3}} = {a: {x: 1, y: 3}}` and
`{a: [1, 2]} ⊕ {a: [3]} = {a: [3]}`. -/
theorem deep_merge_spec :
    (∀ base ov k, (keysF ov).Nodup →
      lookupF (deep_merge base ov) k =
        match lookupF base k, lookupF ov k with
        | some (Val.vdict b), some (Val.vdict o) => some (Val.vdict (deep_merge b o))
        | _, some v => some v
        | ob, none => ob) ∧
    deep_merge
        (fieldsOf [("a".data,
          Val.vdict (fieldsOf [("x".data, Val.vint 1), ("y".data, Val.vint 2)]))])
        (fieldsOf [("a".data, Val.vdict (fieldsOf [("y".data, Val.vint 3)]))]) =
      fieldsOf [("a".data,
        Val.vdict (fieldsOf [("x".data, Val.vint 1), ("y".data, Val.vint 3)]))] ∧
    deep_merge
        (fieldsOf [("a".data, Val.vlist [Val.vint 1, Val.vint 2])])
        (fieldsOf [("a".data, Val.vlist [Val.vint 3])]) =
      fieldsOf [("a".data, Val.vlist [Val.vint 3])] :=
  ⟨fun base ov k h => deep_merge_lookup ov base k h, rfl, rfl⟩

/-- **C3 witness** — the characterization applied to the list-collision
example. -/
theorem deep_merge_spec_witness :
    (keysF (fieldsOf [("a".data, Val.vlist [Val.vint 3])])).Nodup ∧
    lookupF
        (deep_merge (fieldsOf [("a".data, Val.vlist [Val.vint 1, Val.vint 2])])
          (fieldsOf [("a".data, Val.vlist [Val.vint 3])])) "a".data =
      match
        lookupF (fieldsOf [("a".data, Val.vlist [Val.vint 1, Val.vint 2])]) "a".data,
        lookupF (fieldsOf [("a".data, Val.vlist [Val.vint 3])]) "a".data with
      | some (Val.vdict b), some (Val.vdict o) => some (Val.vdict (deep_merge b o))
      | _, some v => some v
      | ob, none => ob :=
  ⟨by decide, deep_merge_spec.1 _ _ _ (by decide)⟩

/-- **C2** — when the environment designates a manifest path and that
file does not exist, scope-file resolution finds nothing (no fallback to
the working-directory manifest, whatever the filesystem holds there),
and `check_scope` therefore allows every target. -/
theorem scope_env_no_fallback :
    ∀ (fs : FS) (cwd : Path) (env : Option Path) (p : Path) (target : Name),
      env = some p → existsPath fs p = false →
      find_scope_file fs env cwd = none ∧
      check_scope fs env cwd target none = (true, none) := by
  intro fs cwd env p target henv hex
  subst henv
  have h1 : find_scope_file fs (some p) cwd = none := by
    simp [find_scope_file, hex]
  refine ⟨h1, ?_⟩
  simp [check_scope, load_scope, h1]

/-- A workspace whose working directory does hold a `jd.yaml` manifest,
used to exhibit that an environment-designated missing path never falls
back to it. -/
def fsScopeCwd : FS :=
  [(["w".data], NodeInfo.dirN),
   (["w".data, "jd.yaml".data],
    NodeInfo.fileN (some (fieldsOf [("scope".data, Val.vlist [Val.vstr "20-29".data])])))]

def envMissing : Path := ["no".data, "such".data, "file".data]

/-- **C2 witness** — the theorem applied with a missing designated path
over a filesystem whose working directory has a manifest. -/
theorem scope_env_no_fallback_witness :
    existsPath fsScopeCwd envMissing = false ∧
    (find_scope_file fsScopeCwd (some envMissing) ["w".data] = none ∧
     check_scope fsScopeCwd (some envMissing) ["w".data] "26.01".data none = (true, none)) :=
  ⟨rfl, scope_env_no_fallback fsScopeCwd ["w".data] (some envMissing) envMissing
    "26.01".data rfl rfl⟩

/-- **C10** — an empty scope pattern list denies everything:
`is_in_scope` is false for every target, so a manifest that loads to the
empty list makes `check_scope` refuse every mutation (the opposite
extreme of an absent manifest, which loads to `none` and allows all). -/
theorem empty_scope_denies :
    (∀ target, is_in_scope target [] = false) ∧
    (∀ (fs : FS) (env : Option Path) (cwd : Path) (sf : Option Path) (target : Name),
      load_scope fs env cwd sf = some [] →
      check_scope fs env cwd target sf =
        (false, some ("Out of scope: ".data ++ target ++
          " is not in agent scope ".data ++ scopeListRepr []))) := by
  refine ⟨fun _ => rfl, ?_⟩
  intro fs env cwd sf target h
  simp [check_scope, h, is_in_scope]

/-- A workspace whose manifest declares `scope: []`. -/
def fsScopeEmpty : FS :=
  [(["w".data], NodeInfo.dirN),
   (["w".data, "jd.yaml".data],
    NodeInfo.fileN (some (fieldsOf [("scope".data, Val.vlist [])])))]

/-- **C10 witness** — the theorem applied to a manifest that loads to
the empty scope list. -/
theorem empty_scope_denies_witness :
    load_scope fsScopeEmpty none ["w".data] none = some [] ∧
    check_scope fsScopeEmpty none ["w".data] "26.01".data none =
      (false, some ("Out of scope: ".data ++ "26.01".data ++
        " is not in agent scope ".data ++ scopeListRepr [])) :=
  ⟨rfl, empty_scope_denies.2 fsScopeEmpty none ["w".data] none "26.01".data rfl⟩

theorem filter_map_filter_length {α β : Type} (f : α → β) (q : α → Bool) (r : β → Bool) :
    ∀ l : List α,
      (((l.filter q).map f).filter r).length = (l.filter (fun c => q c && r (f c))).length := by
  intro l
  induction l with
  | nil => rfl
  | cons c t ih =>
      by_cases hq : q c = true
      · by_cases hr : r (f c) = true
        · simp [List.filter_cons, hq, hr, ih]
        · simp [List.filter_cons, hq, hr, ih]
      · simp [List.filter_cons, hq, ih]

/-- A directory with three area-shaped subdirectories (plus an orphan, a
dot directory and an area-named plain file as tolerated noise). -/
def fsRoot3 : FS :=
  [(["r".data], NodeInfo.dirN),
   (["r".data, "10-19 A".data], NodeInfo.dirN),
   (["r".data, "20-29 B".data], NodeInfo.dirN),
   (["r".data, "30-39 C".data], NodeInfo.dirN),
   (["r".data, "stuff".data], NodeInfo.dirN),
   (["r".data, ".git".data], NodeInfo.dirN),
   (["r".data, "40-49 D.txt".data], NodeInfo.fileN none)]

/-- The same directory with only two area-shaped subdirectories. -/
def fsRoot2 : FS :=
  [(["r".data], NodeInfo.dirN),
   (["r".data, "10-19 A".data], NodeInfo.dirN),
   (["r".data, "20-29 B".data], NodeInfo.dirN),
   (["r".data, "stuff".data], NodeInfo.dirN),
   (["r".data, ".git".data], NodeInfo.dirN),
   (["r".data, "40-49 D.txt".data], NodeInfo.fileN none)]

/-- **C5** — root detection threshold: a directory qualifies as a
Johnny Decimal root exactly when at least 3 of its immediate
non-dot-prefixed subdirectories are areas; the threshold is exactly 3
(a directory with 3 such areas qualifies, one with 2 does not). -/
theorem is_jd_root_threshold :
    (∀ fs p, is_jd_root fs p = true ↔
      3 ≤ ((childrenEntries fs p).filter
          (fun c => c.2.isDir && !startsWithDot c.1 && is_jd_area fs (p ++ [c.1]))).length) ∧
    is_jd_root fsRoot3 ["r".data] = true ∧
    is_jd_root fsRoot2 ["r".data] = false := by
  refine ⟨?_, rfl, rfl⟩
  intro fs p
  unfold is_jd_root
  simp only [decide_eq_true_eq]
  have heq := filter_map_filter_length (fun c : Name × NodeInfo => p ++ [c.1])
      (fun c => c.2.isDir && !startsWithDot c.1) (fun d => is_jd_area fs d)
      (childrenEntries fs p)
  simp only at heq
  rw [heq]

/-- The claim's Area name shape: two digits, hyphen or en-dash, two
digits, a space, and text. -/
def specAreaName (n : Name) : Prop :=
  ∃ a b s c d t, n = a :: b :: s :: c :: d :: ' ' :: t ∧
    isDigitCh a = true ∧ isDigitCh b = true ∧ (s = '-' ∨ s = '–') ∧
    isDigitCh c = true ∧ isDigitCh d = true ∧ t ≠ []

/-- The claim's ID name shape: two digits, a dot, two digits, a space,
and text. -/
def specIdName (n : Name) : Prop :=
  ∃ a b c d t, n = a :: b :: '.' :: c :: d :: ' ' :: t ∧
    isDigitCh a = true ∧ isDigitCh b = true ∧ isDigitCh c = true ∧
    isDigitCh d = true ∧ t ≠ []

/-- The claim's Category name shape: two digits, a space, and text. -/
def specCatName (n : Name) : Prop :=
  ∃ a b t, n = a :: b :: ' ' :: t ∧ isDigitCh a = true ∧ isDigitCh b = true ∧ t ≠ []

theorem catBasePat_false_of_specArea {n : Name} (h : specAreaName n) :
    catBasePat n = false := by
  obtain ⟨a, b, s, c, d, t, rfl, -, -, hs, -, -, -⟩ := h
  rcases hs with rfl | rfl <;> simp [catBasePat]

theorem catBasePat_false_of_specId {n : Name} (h : specIdName n) :
    catBasePat n = false := by
  obtain ⟨a, b, c, d, t, rfl, -, -, -, -, -⟩ := h
  simp [catBasePat]

theorem is_jd_category_false_of_base (fs : FS) (p : Path)
    (h : catBasePat (pathName p) = false) : is_jd_category fs p = false := by
  unfold is_jd_category
  split_ifs <;> simp [h]

/-- **C8** — classification precedence: an Area-shaped or ID-shaped
name is never classified as a Category, and a directory is classified
as a Category only when it is a directory whose name is
Category-shaped and is neither Area-shaped nor ID-shaped. -/
theorem classification_precedence (fs : FS) (p : Path) :
    ((specAreaName (pathName p) ∨ specIdName (pathName p)) →
      is_jd_category fs p = false) ∧
    (is_jd_category fs p = true →
      isDir fs p = true ∧ specCatName (pathName p) ∧
      ¬ specAreaName (pathName p) ∧ ¬ specIdName (pathName p)) := by
  constructor
  · rintro (h | h)
    · exact is_jd_category_false_of_base fs p (catBasePat_false_of_specArea h)
    · exact is_jd_category_false_of_base fs p (catBasePat_false_of_specId h)
  · intro h
    have hdir : isDir fs p = true := by
      by_contra hd
      rw [Bool.not_eq_true] at hd
      rw [show is_jd_category fs p = false from by simp [is_jd_category, hd]] at h
      exact Bool.false_ne_true h
    have hbase : catBasePat (pathName p) = true := by
      by_contra hb
      rw [Bool.not_eq_true] at hb
      rw [is_jd_category_false_of_base fs p hb] at h
      exact Bool.false_ne_true h
    refine ⟨hdir, ?_, ?_, ?_⟩
    · rcases hn : pathName p with _ | ⟨a, _ | ⟨b, _ | ⟨sp, _ | ⟨e, t⟩⟩⟩⟩ <;>
        rw [hn] at hbase
      · simp [catBasePat] at hbase
      · simp [catBasePat] at hbase
      · simp [catBasePat] at hbase
      · simp [catBasePat] at hbase
      · simp only [catBasePat, Bool.and_eq_true, decide_eq_true_eq] at hbase
        obtain ⟨⟨⟨ha, hb⟩, hsp⟩, -⟩ := hbase
        refine ⟨a, b, e :: t, ?_, ha, hb, by simp⟩
        rw [hsp]
    · intro hA
      rw [catBasePat_false_of_specArea hA] at hbase
      exact Bool.false_ne_true hbase
    · intro hI
      rw [catBasePat_false_of_specId hI] at hbase
      exact Bool.false_ne_true hbase

/-- **C8 witness** — the theorem applied to the area directory
`10-19 A` of the concrete root filesystem. -/
theorem classification_precedence_witness :
    specAreaName (pathName ["r".data, "10-19 A".data]) ∧
    is_jd_category fsRoot3 ["r".data, "10-19 A".data] = false := by
  have hA : specAreaName (pathName ["r".data, "10-19 A".data]) :=
    ⟨'1', '0', '-', '1', '9', "A".data, rfl, rfl, rfl, Or.inl rfl, rfl, rfl, by decide⟩
  exact ⟨hA, (classification_precedence fsRoot3 ["r".data, "10-19 A".data]).1 (Or.inl hA)⟩

/-! ### C4: characterization of `match_pattern` -/

theorem dollarEnd_iff {l : Name} : dollarEnd l = true ↔ l = [] ∨ l = ['\n'] := by
  rcases l with _ | ⟨c, _ | ⟨d, t⟩⟩ <;> simp [dollarEnd]

theorem starSeqPat_eq_some {pat : Name} {a b : Char} :
    starSeqPat pat = some (a, b) ↔
      ((pat = ['*', '.', a, b] ∨ pat = ['*', '.', a, b, '\n']) ∧
        isDigitCh a = true ∧ isDigitCh b = true) := by
  rcases pat with _ | ⟨s, _ | ⟨d, _ | ⟨x, _ | ⟨y, rest⟩⟩⟩⟩
  · simp [starSeqPat]
  · simp [starSeqPat]
  · simp [starSeqPat]
  · simp [starSeqPat]
  · simp only [starSeqPat]
    split_ifs with h
    · simp only [Bool.and_eq_true, decide_eq_true_eq] at h
      obtain ⟨⟨⟨⟨rfl, rfl⟩, hx⟩, hy⟩, hde⟩ := h
      constructor
      · intro he
        obtain ⟨rfl, rfl⟩ : x = a ∧ y = b := by simpa using he
        rcases dollarEnd_iff.mp hde with rfl | rfl
        · exact ⟨Or.inl rfl, hx, hy⟩
        · exact ⟨Or.inr rfl, hx, hy⟩
      · rintro ⟨hsh | hsh, ha, hb⟩
        · obtain ⟨rfl, rfl, rfl⟩ : x = a ∧ y = b ∧ rest = [] := by simpa using hsh
          rfl
        · obtain ⟨rfl, rfl, rfl⟩ : x = a ∧ y = b ∧ rest = ['\n'] := by simpa using hsh
          rfl
    · constructor
      · intro he; simp at he
      · rintro ⟨hsh | hsh, ha, hb⟩
        · obtain ⟨rfl, rfl, rfl, rfl, rfl⟩ :
              s = '*' ∧ d = '.' ∧ x = a ∧ y = b ∧ rest = [] := by simpa using hsh
          exact absurd (by simp [ha, hb, dollarEnd]) h
        · obtain ⟨rfl, rfl, rfl, rfl, rfl⟩ :
              s = '*' ∧ d = '.' ∧ x = a ∧ y = b ∧ rest = ['\n'] := by simpa using hsh
          exact absurd (by simp [ha, hb, dollarEnd]) h

/-- The claim's `*.NN` name condition: two digits, a dot, the sequence
digits `a b`, then end-of-string or a whitespace character. -/
def specStarNameMatch (a b : Char) (n : Name) : Prop :=
  ∃ x y t, n = x :: y :: '.' :: a :: b :: t ∧ isDigitCh x = true ∧ isDigitCh y = true ∧
    (t = [] ∨ ∃ c t2, t = c :: t2 ∧ isSpaceCh c = true)

/-- The claim's `x0` name condition: one nonzero digit, a literal `0`,
a whitespace character. -/
def specX0NameMatch (n : Name) : Prop :=
  ∃ a c t, n = a :: '0' :: c :: t ∧ isDigitCh a = true ∧ a ≠ '0' ∧ isSpaceCh c = true

/-- The claim's bare-`NN` name condition: the pattern itself followed by
a whitespace character. -/
def specCatNameMatch (pat n : Name) : Prop :=
  ∃ c t, n = pat ++ c :: t ∧ isSpaceCh c = true

theorem seqNameMatch_iff {a b : Char} {n : Name} :
    seqNameMatch a b n = true ↔ specStarNameMatch a b n := by
  rcases n with _ | ⟨x, _ | ⟨y, _ | ⟨dot, _ | ⟨s, _ | ⟨t0, rest⟩⟩⟩⟩⟩
  · simp [seqNameMatch, specStarNameMatch]
  · simp [seqNameMatch, specStarNameMatch]
  · simp [seqNameMatch, specStarNameMatch]
  · simp [seqNameMatch, specStarNameMatch]
  · simp [seqNameMatch, specStarNameMatch]
  · simp only [seqNameMatch, Bool.and_eq_true, decide_eq_true_eq]
    constructor
    · rintro ⟨⟨⟨⟨⟨hx, hy⟩, rfl⟩, rfl⟩, rfl⟩, hrest⟩
      refine ⟨x, y, rest, rfl, hx, hy, ?_⟩
      rcases rest with _ | ⟨c, t2⟩
      · exact Or.inl rfl
      · exact Or.inr ⟨c, t2, rfl, hrest⟩
    · rintro ⟨x', y', t', heq, hx', hy', htail⟩
      obtain ⟨rfl, rfl, rfl, rfl, rfl, rfl⟩ :
          x = x' ∧ y = y' ∧ dot = '.' ∧ s = a ∧ t0 = b ∧ rest = t' := by simpa using heq
      refine ⟨⟨⟨⟨⟨hx', hy'⟩, rfl⟩, rfl⟩, rfl⟩, ?_⟩
      rcases htail with rfl | ⟨c, t2, rfl, hc⟩
      · rfl
      · exact hc

theorem x0NameMatch_iff {n : Name} : x0NameMatch n = true ↔ specX0NameMatch n := by
  rcases n with _ | ⟨a, _ | ⟨z, _ | ⟨c, t⟩⟩⟩
  · simp [x0NameMatch, specX0NameMatch]
  · simp [x0NameMatch, specX0NameMatch]
  · simp [x0NameMatch, specX0NameMatch]
  · simp only [x0NameMatch, Bool.and_eq_true, decide_eq_true_eq, Bool.not_eq_true',
      decide_eq_false_iff_not]
    constructor
    · rintro ⟨⟨⟨ha, rfl⟩, hc⟩, hne⟩
      exact ⟨a, c, t, rfl, ha, hne, hc⟩
    · rintro ⟨a', c', t', heq, ha', hne', hc'⟩
      obtain ⟨rfl, rfl, rfl, rfl⟩ : a = a' ∧ z = '0' ∧ c = c' ∧ t = t' := by simpa using heq
      exact ⟨⟨⟨ha', rfl⟩, hc'⟩, hne'⟩

theorem idDotExact_iff {pat : Name} :
    idDotExact pat = true ↔
      ∃ a b c d, (pat = [a, b, '.', c, d] ∨ pat = [a, b, '.', c, d, '\n']) ∧
        isDigitCh a = true ∧ isDigitCh b = true ∧ isDigitCh c = true ∧
        isDigitCh d = true := by
  rcases pat with _ | ⟨a, _ | ⟨b, _ | ⟨dot, _ | ⟨c, _ | ⟨d, rest⟩⟩⟩⟩⟩
  · simp [idDotExact]
  · simp [idDotExact]
  · simp [idDotExact]
  · simp [idDotExact]
  · simp [idDotExact]
  · simp only [idDotExact, Bool.and_eq_true, decide_eq_true_eq]
    constructor
    · rintro ⟨⟨⟨⟨⟨ha, hb⟩, rfl⟩, hc⟩, hd⟩, hde⟩
      rcases dollarEnd_iff.mp hde with rfl | rfl
      · exact ⟨a, b, c, d, Or.inl rfl, ha, hb, hc, hd⟩
      · exact ⟨a, b, c, d, Or.inr rfl, ha, hb, hc, hd⟩
    · rintro ⟨a', b', c', d', hsh | hsh, ha, hb, hc, hd⟩
      · obtain ⟨rfl, rfl, rfl, rfl, rfl, rfl⟩ :
            a = a' ∧ b = b' ∧ dot = '.' ∧ c = c' ∧ d = d' ∧ rest = [] := by
          simpa using hsh
        exact ⟨⟨⟨⟨⟨ha, hb⟩, rfl⟩, hc⟩, hd⟩, rfl⟩
      · obtain ⟨rfl, rfl, rfl, rfl, rfl, rfl⟩ :
            a = a' ∧ b = b' ∧ dot = '.' ∧ c = c' ∧ d = d' ∧ rest = ['\n'] := by
          simpa using hsh
        exact ⟨⟨⟨⟨⟨ha, hb⟩, rfl⟩, hc⟩, hd⟩, by decide⟩

theorem twoDigitExact_iff {pat : Name} :
    twoDigitExact pat = true ↔
      ∃ a b, (pat = [a, b] ∨ pat = [a, b, '\n']) ∧
        isDigitCh a = true ∧ isDigitCh b = true := by
  rcases pat with _ | ⟨a, _ | ⟨b, rest⟩⟩
  · simp [twoDigitExact]
  · simp [twoDigitExact]
  · simp only [twoDigitExact, Bool.and_eq_true]
    constructor
    · rintro ⟨⟨ha, hb⟩, hde⟩
      rcases dollarEnd_iff.mp hde with rfl | rfl
      · exact ⟨a, b, Or.inl rfl, ha, hb⟩
      · exact ⟨a, b, Or.inr rfl, ha, hb⟩
    · rintro ⟨a', b', hsh | hsh, ha, hb⟩
      · obtain ⟨rfl, rfl, rfl⟩ : a = a' ∧ b = b' ∧ rest = [] := by simpa using hsh
        exact ⟨⟨ha, hb⟩, rfl⟩
      · obtain ⟨rfl, rfl, rfl⟩ : a = a' ∧ b = b' ∧ rest = ['\n'] := by simpa using hsh
        exact ⟨⟨ha, hb⟩, by decide⟩

theorem catNameMatch_iff {pat n : Name} :
    catNameMatch pat n = true ↔ specCatNameMatch pat n := by
  simp only [catNameMatch, Bool.and_eq_true, List.isPrefixOf_iff_prefix]
  constructor
  · rintro ⟨⟨t, rfl⟩, hm⟩
    rw [List.drop_left] at hm
    rcases t with _ | ⟨c, t2⟩
    · simp at hm
    · exact ⟨c, t2, rfl, hm⟩
  · rintro ⟨c, t, rfl, hc⟩
    refine ⟨⟨c :: t, rfl⟩, ?_⟩
    rw [List.drop_left]
    exact hc

theorem not_digit_star {a : Char} (h : isDigitCh a = true) : ¬ a = '*' := by
  intro e; rw [e] at h; exact absurd h (by decide)

/-- **C4 (amended)** — `match_pattern` implements the four declared
pattern forms, with one extra wrinkle inherited from Python's trailing
`$` (which also matches just before a single final newline): each of the
`*.NN`, `NN` and `NN.MM` pattern forms is also recognised with one
trailing newline appended.  Matching holds exactly in these cases:
`*.NN` (or `*.NN\n`) against two digits, a dot, `NN`, then end or
whitespace; the literal `x0` against a nonzero digit, `0`, whitespace;
`NN.MM` (or with trailing newline) as a plain prefix of the name;
`NN` (or with trailing newline) followed by whitespace.  Every other
pattern string matches no name. -/
theorem match_pattern_forms (pat n : Name) :
    match_pattern pat n = true ↔
      ((∃ a b, (pat = ['*', '.', a, b] ∨ pat = ['*', '.', a, b, '\n']) ∧
          isDigitCh a = true ∧ isDigitCh b = true ∧ specStarNameMatch a b n) ∨
       (pat = "x0".data ∧ specX0NameMatch n) ∨
       (∃ a b c d, (pat = [a, b, '.', c, d] ∨ pat = [a, b, '.', c, d, '\n']) ∧
          isDigitCh a = true ∧ isDigitCh b = true ∧ isDigitCh c = true ∧
          isDigitCh d = true ∧ pat <+: n) ∨
       (∃ a b, (pat = [a, b] ∨ pat = [a, b, '\n']) ∧
          isDigitCh a = true ∧ isDigitCh b = true ∧ specCatNameMatch pat n)) := by
  unfold match_pattern
  rcases hstar : starSeqPat pat with _ | ⟨a, b⟩
  · -- no `*.NN` pattern; fall through the three remaining checks
    show (if pat = "x0".data then x0NameMatch n
          else if idDotExact pat = true then pat.isPrefixOf n
          else if twoDigitExact pat = true then catNameMatch pat n
          else false) = true ↔ _
    by_cases hx0 : pat = "x0".data
    · subst hx0
      rw [if_pos rfl, x0NameMatch_iff]
      constructor
      · intro h; exact Or.inr (Or.inl ⟨rfl, h⟩)
      · rintro (⟨a, b, hsh | hsh, ha, hb, hm⟩ | ⟨-, hm⟩ |
                ⟨a, b, c, d, hsh | hsh, ha, hb, hc, hd, hm⟩ |
                ⟨a, b, hsh | hsh, ha, hb, hm⟩)
        · simp at hsh
        · simp at hsh
        · exact hm
        · simp at hsh
        · simp at hsh
        · obtain ⟨ha', -⟩ : 'x' = a ∧ '0' = b := by simpa using hsh
          rw [← ha'] at ha; exact absurd ha (by decide)
        · simp at hsh
    · by_cases hidd : idDotExact pat = true
      · rw [if_neg hx0, if_pos hidd, show (pat.isPrefixOf n = true) = (pat <+: n) from
          propext ( List.isPrefixOf_iff_prefix)]
        obtain ⟨a, b, c, d, hsh, ha, hb, hc, hd⟩ := idDotExact_iff.mp hidd
        constructor
        · intro h
          exact Or.inr (Or.inr (Or.inl ⟨a, b, c, d, hsh, ha, hb, hc, hd, h⟩))
        · rcases hsh with rfl | rfl <;>
            rintro (⟨a', b', hsh' | hsh', ha', hb', hm⟩ | ⟨hx, hm⟩ |
                    ⟨a', b', c', d', hsh' | hsh', ha', hb', hc', hd', hm⟩ |
                    ⟨a', b', hsh' | hsh', ha', hb', hm⟩)
          · simp at hsh'
          · obtain ⟨he, -⟩ : a = '*' ∧ b = '.' ∧ '.' = a' ∧ c = b' ∧ d = '\n' := by
              simpa using hsh'
            rw [he] at ha; exact absurd ha (by decide)
          · exact absurd hx hx0
          · exact hm
          · exact hm
          · simp at hsh'
          · simp at hsh'
          · simp at hsh'
          · simp at hsh'
          · exact absurd hx hx0
          · exact hm
          · exact hm
          · simp at hsh'
          · simp at hsh'
      · by_cases h2d : twoDigitExact pat = true
        · rw [if_neg hx0, if_neg hidd, if_pos h2d, catNameMatch_iff]
          obtain ⟨a, b, hsh, ha, hb⟩ := twoDigitExact_iff.mp h2d
          constructor
          · intro h
            exact Or.inr (Or.inr (Or.inr ⟨a, b, hsh, ha, hb, h⟩))
          · rcases hsh with rfl | rfl <;>
              rintro (⟨a', b', hsh' | hsh', ha', hb', hm⟩ | ⟨hx, hm⟩ |
                      ⟨a', b', c', d', hsh' | hsh', ha', hb', hc', hd', hm⟩ |
                      ⟨a', b', hsh' | hsh', ha', hb', hm⟩)
            · simp at hsh'
            · simp at hsh'
            · exact absurd hx hx0
            · simp at hsh'
            · simp at hsh'
            · exact hm
            · simp at hsh'
            · simp at hsh'
            · simp at hsh'
            · exact absurd hx hx0
            · simp at hsh'
            · simp at hsh'
            · simp at hsh'
            · exact hm
        · rw [if_neg hx0, if_neg hidd, if_neg h2d]
          constructor
          · intro h; simp at h
          · rintro (⟨a, b, hsh | hsh, ha, hb, hm⟩ | ⟨hx, hm⟩ |
                    ⟨a, b, c, d, hsh | hsh, ha, hb, hc, hd, hm⟩ |
                    ⟨a, b, hsh | hsh, ha, hb, hm⟩)
            · subst hsh; simp [starSeqPat, ha, hb, dollarEnd] at hstar
            · subst hsh; simp [starSeqPat, ha, hb, dollarEnd] at hstar
            · exact absurd hx hx0
            · subst hsh; simp [idDotExact, ha, hb, hc, hd, dollarEnd] at hidd
            · subst hsh; simp [idDotExact, ha, hb, hc, hd, dollarEnd] at hidd
            · subst hsh; simp [twoDigitExact, ha, hb, dollarEnd] at h2d
            · subst hsh; simp [twoDigitExact, ha, hb, dollarEnd] at h2d
  · -- `*.NN` pattern recognised with sequence digits a b
    show seqNameMatch a b n = true ↔ _
    obtain ⟨hsh, ha, hb⟩ := starSeqPat_eq_some.mp hstar
    rw [seqNameMatch_iff]
    constructor
    · intro h
      exact Or.inl ⟨a, b, hsh, ha, hb, h⟩
    · rcases hsh with rfl | rfl <;>
        rintro (⟨a', b', hsh' | hsh', ha', hb', hm⟩ | ⟨hx, hm⟩ |
                ⟨a', b', c', d', hsh' | hsh', ha', hb', hc', hd', hm⟩ |
                ⟨a', b', hsh' | hsh', ha', hb', hm⟩)
      · obtain ⟨rfl, rfl⟩ : a = a' ∧ b = b' := by simpa using hsh'
        exact hm
      · simp at hsh'
      · simp at hx
      · simp at hsh'
      · simp at hsh'
      · simp at hsh'
      · simp at hsh'
      · simp at hsh'
      · obtain ⟨rfl, rfl⟩ : a = a' ∧ b = b' := by simpa using hsh'
        exact hm
      · simp at hx
      · obtain ⟨he, -⟩ : '*' = a' ∧ '.' = b' ∧ a = '.' ∧ b = c' ∧ '\n' = d' := by
          simpa using hsh'
        rw [← he] at ha'; exact absurd ha' (by decide)
      · simp at hsh'
      · simp at hsh'
      · simp at hsh'

/-- The four pattern forms exactly as the claim declares them
(`*.NN`, literal `x0`, bare `NN`, `NN.MM`) — no trailing newline. -/
def declaredPatternForm (pat : Name) : Prop :=
  (∃ a b, pat = ['*', '.', a, b] ∧ isDigitCh a = true ∧ isDigitCh b = true) ∨
  pat = "x0".data ∨
  (∃ a b, pat = [a, b] ∧ isDigitCh a = true ∧ isDigitCh b = true) ∨
  (∃ a b c d, pat = [a, b, '.', c, d] ∧ isDigitCh a = true ∧ isDigitCh b = true ∧
    isDigitCh c = true ∧ isDigitCh d = true)

/-- **C4 counterexample** — the pattern `"*.00\n"` is none of the four
declared forms, yet it matches the name `"26.00"` (Python's trailing `$`
also matches just before a final newline), refuting "every other pattern
string matches no name". -/
theorem match_pattern_counterexample :
    match_pattern ['*', '.', '0', '0', '\n'] "26.00".data = true ∧
    ¬ declaredPatternForm ['*', '.', '0', '0', '\n'] := by
  refine ⟨rfl, ?_⟩
  rintro (⟨a, b, h, -, -⟩ | h | ⟨a, b, h, -, -⟩ | ⟨a, b, c, d, h, ha, hb, -, -⟩)
  · simp at h
  · simp at h
  · simp at h
  · simp at h

/-! ### C1: the policy cascade scenario -/

/-- The override document of the scenario:
`conventions: {ids_files_only: true}`. -/
def c1doc : Fields :=
  fieldsOf [("conventions".data,
    Val.vdict (fieldsOf [("ids_files_only".data, Val.vbool true)]))]

/-- The scenario filesystem: a root `D` holding area `80-89 Stuff`
(category `80 Meta` with meta dir `80.00` carrying the override
document, ID `80.01 Foo`, and sibling category `81 Other` with ID
`81.01 Bar` and no meta dir), plus area `20-29 Family` (category
`26 Recipes` with ID `26.01 Unsorted`, no policy anywhere). -/
def fsC1 : FS :=
  [(["D".data], NodeInfo.dirN),
   (["D".data, "80-89 Stuff".data], NodeInfo.dirN),
   (["D".data, "80-89 Stuff".data, "80 Meta".data], NodeInfo.dirN),
   (["D".data, "80-89 Stuff".data, "80 Meta".data, "80.00".data], NodeInfo.dirN),
   (["D".data, "80-89 Stuff".data, "80 Meta".data, "80.00".data, "policy.yaml".data],
      NodeInfo.fileN (some c1doc)),
   (["D".data, "80-89 Stuff".data, "80 Meta".data, "80.01 Foo".data], NodeInfo.dirN),
   (["D".data, "80-89 Stuff".data, "81 Other".data], NodeInfo.dirN),
   (["D".data, "80-89 Stuff".data, "81 Other".data, "81.01 Bar".data], NodeInfo.dirN),
   (["D".data, "20-29 Family".data], NodeInfo.dirN),
   (["D".data, "20-29 Family".data, "26 Recipes".data], NodeInfo.dirN),
   (["D".data, "20-29 Family".data, "26 Recipes".data, "26.01 Unsorted".data],
      NodeInfo.dirN)]

def rootD : Path := ["D".data]

def cat80 : Path := ["D".data, "80-89 Stuff".data, "80 Meta".data]

def cat81 : Path := ["D".data, "80-89 Stuff".data, "81 Other".data]

def id81 : Path := ["D".data, "80-89 Stuff".data, "81 Other".data, "81.01 Bar".data]

def id26 : Path :=
  ["D".data, "20-29 Family".data, "26 Recipes".data, "26.01 Unsorted".data]

def idsFilesOnlyKey : Name := "ids_files_only".data

/-- **C1 counterexample** — category `80`'s meta dir carries the
override document setting `ids_files_only: true`, category `81` has no
local override document (no meta dir at all), `81` sits in a different
category than `80` — yet resolving a path inside `81` does *not* yield
the built-in default `false`: because `80` is also area `80-89`'s meta
category, the document applies area-wide. -/
theorem policy_cascade_counterexample :
    load_policy_file fsC1 cat80 = some c1doc ∧
    lookupF c1doc "conventions".data =
      some (Val.vdict (fieldsOf [("ids_files_only".data, Val.vbool true)])) ∧
    find_meta_dir fsC1 cat81 = none ∧
    ¬ get_convention (resolve_policy fsC1 id81 rootD) idsFilesOnlyKey (Val.vbool false) =
        Val.vbool false := by
  refine ⟨rfl, rfl, rfl, ?_⟩
  intro h
  rw [show get_convention (resolve_policy fsC1 id81 rootD) idsFilesOnlyKey
      (Val.vbool false) = Val.vbool true from rfl] at h
  injection h with h2
  exact absurd h2 (by decide)

/-- **C1 (amended)** — with the override document at category `80`'s
meta dir (its `80.00` child) setting `conventions.ids_files_only` to
`true`, `resolve_policy` yields `true` for every directory at or below
category `80`; since `80.00` is also the meta dir of area `80-89`, the
same holds throughout that area (whence the counterexample at `81`);
a path inside a category of a *different area* with no override
document anywhere on its chain still resolves to the built-in default
`false`. -/
theorem policy_cascade_amended :
    (∀ p, p ∈ dirsUnder fsC1 cat80 →
      get_convention (resolve_policy fsC1 p rootD) idsFilesOnlyKey (Val.vbool false) =
        Val.vbool true) ∧
    (∀ p, p ∈ dirsUnder fsC1 cat81 →
      get_convention (resolve_policy fsC1 p rootD) idsFilesOnlyKey (Val.vbool false) =
        Val.vbool true) ∧
    get_convention (resolve_policy fsC1 id26 rootD) idsFilesOnlyKey (Val.vbool false) =
      Val.vbool false := by
  refine ⟨?_, ?_, rfl⟩
  · intro p hp
    rw [show dirsUnder fsC1 cat80 =
        [cat80, cat80 ++ ["80.00".data], cat80 ++ ["80.01 Foo".data]] from rfl] at hp
    simp only [List.mem_cons, List.not_mem_nil, or_false] at hp
    rcases hp with rfl | rfl | rfl <;> rfl
  · intro p hp
    rw [show dirsUnder fsC1 cat81 = [cat81, id81] from rfl] at hp
    simp only [List.mem_cons, List.not_mem_nil, or_false] at hp
    rcases hp with rfl | rfl <;> rfl

/-- **C1 witness** — the amended theorem applied to the category-`80`
directory itself. -/
theorem policy_cascade_amended_witness :
    cat80 ∈ dirsUnder fsC1 cat80 ∧
    get_convention (resolve_policy fsC1 cat80 rootD) idsFilesOnlyKey (Val.vbool false) =
      Val.vbool true :=
  ⟨by decide, policy_cascade_amended.1 cat80 (by decide)⟩

/-! ### C6: the root-resolution walk and the home boundary -/

theorem pfxDropLast {α : Type} (l : List α) : l.dropLast <+: l :=
  List.dropLast_prefix l

theorem pfxDropLast_mono {α : Type} {m p : List α} (h : m <+: p) :
    m.dropLast <+: p.dropLast := by
  obtain ⟨t, rfl⟩ := h
  rcases t with _ | ⟨c, t2⟩
  · simp
  · rw [List.dropLast_append_cons]
    exact (pfxDropLast m).trans (List.prefix_append m _)

/-- The exact behaviour of the `get_jd_root_dir` loop on the segment
between `start` and the first directory outside home: the final
directory is an ancestor of `p` no higher than home's parent, it is
either a root or exactly home's parent, and every strictly-later
ancestor visited on the way was not a root. -/
theorem walkUp_spec (fs : FS) (home start : Path) (hne : home ≠ [])
    (hstart : home <+: start) :
    ∀ (fuel : Nat) (p : Path), p <+: start → home.dropLast <+: p → p.length < fuel →
      (walkUp fs home fuel p <+: p) ∧
      (home.dropLast <+: walkUp fs home fuel p) ∧
      (is_jd_root fs (walkUp fs home fuel p) = true ∨
        walkUp fs home fuel p = home.dropLast) ∧
      (∀ m, walkUp fs home fuel p <+: m → m <+: p →
        (walkUp fs home fuel p).length < m.length → is_jd_root fs m = false) := by
  intro fuel
  induction fuel with
  | zero => intro p _ _ h; omega
  | succ fuel ih =>
      intro p hps hhp hlen
      by_cases hcond : (!(is_jd_root fs p) && is_in_user_home home p) = true
      · have hcond' : is_jd_root fs p = false ∧ is_in_user_home home p = true := by
          simpa [Bool.and_eq_true, Bool.not_eq_true'] using hcond
        have hinh : home <+: p := by
          simpa [is_in_user_home] using hcond'.2
        have hpne : p ≠ [] := by
          rintro rfl
          exact hne (List.prefix_nil.mp hinh)
        have hplen : 1 ≤ p.length := by
          rcases p with _ | ⟨x, t⟩
          · exact absurd rfl hpne
          · simp
        have hrec := ih p.dropLast ((pfxDropLast p).trans hps) (pfxDropLast_mono hinh)
          (by rw [List.length_dropLast]; omega)
        rw [show walkUp fs home (fuel + 1) p = walkUp fs home fuel p.dropLast from by
          simp [walkUp, hcond]]
        obtain ⟨h1, h2, h3, h4⟩ := hrec
        refine ⟨h1.trans (pfxDropLast p), h2, h3, ?_⟩
        intro m hm1 hm2 hm3
        by_cases hmp : m = p
        · subst hmp; exact hcond'.1
        · have hmlt : m.length < p.length :=
            lt_of_le_of_ne hm2.length_le (fun e => hmp (hm2.eq_of_length e))
          have hmdl : m <+: p.dropLast :=
            List.prefix_of_prefix_length_le hm2 (pfxDropLast p)
              (by rw [List.length_dropLast]; omega)
          exact h4 m hm1 hmdl hm3
      · rw [show walkUp fs home (fuel + 1) p = p from by simp [walkUp, hcond]]
        refine ⟨List.prefix_rfl, hhp, ?_, ?_⟩
        · rcases Bool.eq_false_or_eq_true (is_jd_root fs p) with hr | hr
          · left; exact hr
          · right
            have hnin : is_in_user_home home p = false := by
              rcases Bool.eq_false_or_eq_true (is_in_user_home home p) with h0 | h0
              · exact absurd (by simp [hr, h0]) hcond
              · exact h0
            have hnpfx : ¬ home <+: p := by
              rw [← List.isPrefixOf_iff_prefix, Bool.not_eq_true]
              exact hnin
            have hplt : p.length < home.length := by
              by_contra hge
              push_neg at hge
              exact hnpfx (List.prefix_of_prefix_length_le hstart hps hge)
            have hdll : (home.dropLast).length = home.length - 1 :=
              List.length_dropLast home
            have hhl : 1 ≤ home.length := by
              rcases home with _ | ⟨x, t⟩
              · exact absurd rfl hne
              · simp
            have hlep : (home.dropLast).length ≤ p.length := hhp.length_le
            exact (hhp.eq_of_length (by omega)).symm
        · intro m hm1 hm2 hm3
          have := hm2.length_le
          have := hm1.length_le
          omega

/-- A home directory `/home/u` inside `/home`, where `/home` itself
looks like a Johnny Decimal root (three area children) but nothing at or
below `/home/u` does. -/
def fsHome : FS :=
  [(["home".data], NodeInfo.dirN),
   (["home".data, "10-19 A".data], NodeInfo.dirN),
   (["home".data, "20-29 B".data], NodeInfo.dirN),
   (["home".data, "30-39 C".data], NodeInfo.dirN),
   (["home".data, "u".data], NodeInfo.dirN),
   (["home".data, "u".data, "docs".data], NodeInfo.dirN)]

def homeU : Path := ["home".data, "u".data]

def startU : Path := ["home".data, "u".data, "docs".data]

/-- **C6 counterexample** — starting inside the home directory with no
root-shaped directory on the walk within home, resolution does *not*
raise: the final loop check falls on home's parent (here `/home`), and a
root found there is returned even though it lies outside the home
boundary. -/
theorem root_walk_counterexample :
    is_jd_root fsHome startU = false ∧
    is_jd_root fsHome homeU = false ∧
    get_jd_root_dir fsHome homeU startU = some ["home".data] ∧
    is_in_user_home homeU ["home".data] = false :=
  ⟨rfl, rfl, rfl, rfl⟩

/-- **C6 (amended)** — root resolution from a path inside home: the
upward walk tests ancestors up to and including home's *parent* (the
first directory outside the home boundary).  A returned root is always
an ancestor of the start lying no higher than home's parent — so it may
be home's parent itself, but never anything higher — and resolution
raises `NotJohnnyDecimalDirectory` exactly when no ancestor from the
start up through home's parent passes the root test. -/
theorem root_walk_boundary (fs : FS) (home start : Path)
    (hne : home ≠ []) (hstart : home <+: start) :
    (∀ r, get_jd_root_dir fs home start = some r →
       is_jd_root fs r = true ∧ home.dropLast <+: r ∧ r <+: start) ∧
    (get_jd_root_dir fs home start = none ↔
       ∀ p, p <+: start → home.dropLast <+: p → is_jd_root fs p = false) := by
  obtain ⟨h1, h2, h3, h4⟩ := walkUp_spec fs home start hne hstart (start.length + 1)
    start List.prefix_rfl ((pfxDropLast home).trans hstart) (by omega)
  have hmain : get_jd_root_dir fs home start =
      (if is_jd_root fs (walkUp fs home (start.length + 1) start) = true then
        some (walkUp fs home (start.length + 1) start) else none) := rfl
  rw [hmain]
  generalize hq : walkUp fs home (start.length + 1) start = q at h1 h2 h3 h4 ⊢
  constructor
  · intro r hr
    by_cases hroot : is_jd_root fs q = true
    · rw [if_pos hroot] at hr
      obtain rfl : q = r := by simpa using hr
      exact ⟨hroot, h2, h1⟩
    · rw [if_neg hroot] at hr
      exact absurd hr (by simp)
  · split_ifs with hroot
    · constructor
      · intro h; simp at h
      · intro hall
        exact absurd hroot (by simp [hall q h1 h2])
    · have hq3 : q = home.dropLast := by
        rcases h3 with h | h
        · exact absurd h hroot
        · exact h
      constructor
      · rintro - p hp1 hp2
        by_cases hpq : p = q
        · subst hpq
          rcases Bool.eq_false_or_eq_true (is_jd_root fs p) with h0 | h0
          · exact absurd h0 hroot
          · exact h0
        · have hqp : q <+: p := hq3 ▸ hp2
          have hlt : q.length < p.length :=
            lt_of_le_of_ne hqp.length_le (fun e => hpq ((hqp.eq_of_length e).symm))
          exact h4 p hqp hp1 hlt
      · rintro -; rfl

/-- **C6 witness** — the amended theorem applied to the concrete
home-boundary filesystem: resolution returns `/home`, home's parent,
which is a root and an ancestor of the start no higher than home's
parent. -/
theorem root_walk_boundary_witness :
    homeU ≠ [] ∧ homeU <+: startU ∧
    (is_jd_root fsHome ["home".data] = true ∧
     homeU.dropLast <+: ["home".data] ∧ ["home".data] <+: startU) :=
  ⟨by decide, ⟨["docs".data], rfl⟩,
   (root_walk_boundary fsHome homeU startU (by decide) ⟨["docs".data], rfl⟩).1
     ["home".data] rfl⟩

end JD
